import Mathlib

/-!
Shallow embedding of the feature-flag cleanup tool `ld_flag_cleanup.py`.

Each component of the program is translated into an executable Lean
definition, directly from the source:

* `get_indent`, `adjust_indentation` — the indentation normalizer
  (source lines 59-88);
* `PExpr`, `PNode`, `classifyTest`, `collect_locations` — the syntax-tree
  view and the flag-usage locator (`LocationCollector.visit_If` together
  with the `generic_visit` traversal, source lines 8-57).  Python statement
  lists are encoded with the `seqNil` / `seqCons` constructors of `PNode`.
  `ast.parse` is a Python standard-library collaborator, not code of this
  repository, so the parsed tree is an explicit input here; every concrete
  tree used below is written next to the source text it is the parse of,
  with the line information Python's parser assigns;
* `applyLoc`, `clean_flag_usage` — the source rewriter (lines 90-128);
* `searchFlagPattern`, `removeScanGo`, `remove_flag_definition` — the
  declaration remover (lines 130-187), including an exact character-level
  model of the regular expression `FLAG\s*=\s*FeatureFlag\([^)]*\)` and of
  the blank-line collapse `re.sub` with pattern three-or-more newlines.

Modelling notes.  Python text is treated as a list of characters; line
splitting keeps the trailing newline of each line, as
`str.splitlines(keepends=True)` does for newline-terminated text (all
inputs below use only the newline terminator).  Python raises `IndexError`
on an out-of-range list read, which `clean_flag_usage` catches, returning
the input text unmodified; the total model uses a `""` default for the one
indexed read, which is exercised only in range in the theorems below.
-/

/-- Python whitespace, as recognised by `str.strip`, `str.lstrip` and the
regex class for whitespace used in the declaration pattern. -/
def isPySpace (c : Char) : Bool :=
  c = ' ' || c = '\t' || c = '\n' || c = '\r' || c = '\x0b' || c = '\x0c'

/-- Whether `pat` occurs at the very start of `s`. -/
def leadsWith : List Char → List Char → Bool
  | [], _ => true
  | _ :: _, [] => false
  | p :: ps, c :: cs => p = c && leadsWith ps cs

/-- Whether `pat` occurs anywhere in `s` (Python substring membership). -/
def occursIn (pat : List Char) : List Char → Bool
  | [] => leadsWith pat []
  | c :: cs => leadsWith pat (c :: cs) || occursIn pat cs

/-- Python `needle in haystack` on strings. -/
def containsStr (haystack needle : String) : Bool :=
  occursIn needle.toList haystack.toList

/-- Python character-level slice `s[n:]`. -/
def strDrop (s : String) (n : Nat) : String :=
  String.mk (s.toList.drop n)

/-- `get_indent` (source lines 59-61): the leading whitespace of a line,
`line[:len(line) - len(line.lstrip())]`. -/
def get_indent (line : String) : String :=
  String.mk (line.toList.takeWhile isPySpace)

/-- Python `not line.strip()`: the line is empty or all whitespace. -/
def isBlankLine (line : String) : Bool :=
  line.toList.all isPySpace

/-- `adjust_indentation` (source lines 63-88).  Finds the indentation of the
first non-blank line of the block; if it already equals the target the block
is returned unchanged; otherwise every non-blank line has its first
`min_indent_length` characters removed and the target indentation
prepended, and blank lines pass through. -/
def adjust_indentation (lines : List String) (target_indent : String) : List String :=
  if lines.isEmpty then lines
  else
    match lines.filter (fun l => !(isBlankLine l)) with
    | [] => lines
    | first :: _ =>
      let current_indent := get_indent first
      let min_indent_length := current_indent.toList.length
      if current_indent = target_indent then lines
      else
        lines.map (fun line =>
          if !(isBlankLine line) then target_indent ++ strDrop line min_indent_length
          else line)

/-- Helper for `splitLines`: accumulates the characters of the current line
(in reverse) while scanning. -/
def splitLinesAux (acc : List Char) : List Char → List String
  | [] => if acc.isEmpty then [] else [String.mk acc.reverse]
  | c :: cs =>
    if c = '\n' then String.mk (acc.reverse ++ ['\n']) :: splitLinesAux [] cs
    else splitLinesAux (c :: acc) cs

/-- Python `source.splitlines(keepends=True)` for newline-separated text. -/
def splitLines (s : String) : List String :=
  splitLinesAux [] s.toList

/-- The shapes of a conditional's test expression that
`LocationCollector.visit_If` distinguishes (source lines 20-31):
a call whose callee is an attribute access (`ast.Call` over
`ast.Attribute`, carrying the attribute name), a logical negation
(`ast.UnaryOp` with operator `ast.Not`), and everything else. -/
inductive PExpr where
  | call (callee : PExpr)
  | attrExpr (attrName : String)
  | negExpr (operand : PExpr)
  | otherExpr
deriving DecidableEq

/-- A Python statement tree with the line information the locator reads.
`ifStmt` carries `lineno`, `end_lineno`, the test, the `body` statement
list and the `orelse` statement list; `raiseStmt` is a `raise` statement;
`otherStmt` is any other statement, with the statements nested inside it
(so that conditionals inside functions, classes and loops are traversed,
as `generic_visit` does).  Statement lists are spelled with `seqNil` and
`seqCons`. -/
inductive PNode where
  | ifStmt (lineno endLineno : Nat) (test : PExpr) (body orelse : PNode)
  | raiseStmt (lineno endLineno : Nat)
  | otherStmt (lineno endLineno : Nat) (children : PNode)
  | seqNil
  | seqCons (headStmt tailSeq : PNode)
deriving DecidableEq

/-- The `lineno` attribute of a statement node. -/
def nodeLineno : PNode → Nat
  | .ifStmt l _ _ _ _ => l
  | .raiseStmt l _ => l
  | .otherStmt l _ _ => l
  | _ => 0

/-- The `end_lineno` attribute of a statement node. -/
def nodeEndLineno : PNode → Nat
  | .ifStmt _ e _ _ _ => e
  | .raiseStmt _ e => e
  | .otherStmt _ e _ => e
  | _ => 0

/-- A match record, as stored in `LocationCollector.locations`
(source lines 41-55): `keep` holds `if_start`, `if_end`,
`true_branch_start`, `true_branch_end` for a direct flag check
(`keep_body=True`); `drop` holds `if_start`, `if_end` for a negated check
(`keep_body=False`). -/
inductive FlagLoc where
  | keep (ifStart ifEnd tbStart tbEnd : Nat)
  | drop (ifStart ifEnd : Nat)
deriving DecidableEq

/-- The guard classification of `visit_If` (source lines 16-31):
`some true` for a call whose callee is an attribute access with attribute
equal to the flag name; `some false` for a logical negation of such a
call; `none` (no match record) otherwise. -/
def classifyTest (flag : String) : PExpr → Option Bool
  | .call callee =>
    match callee with
    | .attrExpr a => if a = flag then some true else none
    | _ => none
  | .negExpr operand =>
    match operand with
    | .call callee =>
      match callee with
      | .attrExpr a => if a = flag then some false else none
      | _ => none
    | _ => none
  | _ => none

/-- The `lineno` of each statement of a statement list. -/
def seqLinenos : PNode → List Nat
  | .seqCons h t => nodeLineno h :: seqLinenos t
  | _ => []

/-- The `end_lineno` of each statement of a statement list. -/
def seqEndLinenos : PNode → List Nat
  | .seqCons h t => nodeEndLineno h :: seqEndLinenos t
  | _ => []

/-- `min(stmt.lineno - 1 for stmt in node.body)` (source line 39). -/
def true_branch_start (body : PNode) : Nat :=
  match (seqLinenos body).map (fun l => l - 1) with
  | [] => 0
  | x :: xs => xs.foldl Nat.min x

/-- `max(stmt.end_lineno for stmt in node.body)` (source line 40). -/
def true_branch_end (body : PNode) : Nat :=
  match seqEndLinenos body with
  | [] => 0
  | x :: xs => xs.foldl Nat.max x

/-- The match record contributed by one `If` node itself
(source lines 33-55); empty for every other node. -/
def locHere (flag : String) : PNode → List FlagLoc
  | .ifStmt l e t body _ =>
    match classifyTest flag t with
    | some true =>
      [FlagLoc.keep (l - 1) e (true_branch_start body) (true_branch_end body)]
    | some false => [FlagLoc.drop (l - 1) e]
    | none => []
  | _ => []

/-- The full collector traversal: `visit_If` appends the node's own record
and then `generic_visit` recurses into `body` and `orelse` in field order;
other statements are traversed for nested conditionals.  Records come out
in source order, parents before their nested children. -/
def collect_locations (flag : String) : PNode → List FlagLoc
  | .ifStmt l e t body orelse =>
    locHere flag (.ifStmt l e t body orelse) ++
      collect_locations flag body ++ collect_locations flag orelse
  | .otherStmt _ _ children => collect_locations flag children
  | .seqCons h t => collect_locations flag h ++ collect_locations flag t
  | _ => []

/-- Python list slice `lines[a:b]` (for `a ≤ b`, with clamping). -/
def sliceList (lines : List String) (a b : Nat) : List String :=
  (lines.drop a).take (b - a)

/-- Python slice assignment `lines[a:b] = repl` (for `a ≤ b`). -/
def spliceRange (lines : List String) (a b : Nat) (repl : List String) : List String :=
  lines.take a ++ repl ++ lines.drop b

/-- One iteration of the rewrite loop of `clean_flag_usage`
(source lines 107-122): a `keep` record splices the re-indented true
branch over the whole construct range; a `drop` record deletes the
construct range. -/
def applyLoc (lines : List String) : FlagLoc → List String
  | .keep s e ts te =>
    spliceRange lines s e
      (adjust_indentation (sliceList lines ts te) (get_indent (lines.getD s "")))
  | .drop s e => spliceRange lines s e []

/-- `clean_flag_usage` (source lines 90-128), with the parsed tree passed
explicitly.  If the collector finds no locations the original source is
returned with `modified = False`; otherwise the records are applied in
reverse collection order and the lines are rejoined, with
`modified = True`. -/
def clean_flag_usage (source : String) (tree : PNode) (feature_flag_name : String) :
    String × Bool :=
  let locs := collect_locations feature_flag_name tree
  if locs.isEmpty then (source, false)
  else (String.join (locs.reverse.foldl applyLoc (splitLines source)), true)

/-- Python `s.count(c)` for a single character. -/
def countChar (s : String) (c : Char) : Nat :=
  s.toList.count c

/-- `line.count('(') - line.count(')')`, the running parenthesis balance
contribution of one line (source lines 161 and 168). -/
def parenDelta (s : String) : Int :=
  (countChar s '(' : Int) - (countChar s ')' : Int)

/-- Python `s.replace(chr(10), '')`: delete every newline character. -/
def stripNL (s : String) : String :=
  String.mk (s.toList.filter (fun c => !(c = '\n')))

/-- The part of the declaration regex after the flag name:
whitespace, `=`, whitespace, the literal `FeatureFlag(`, then any
characters other than `)` up to a closing `)`.  Both whitespace stars are
deterministic because `=` and `F` are not whitespace, and the
non-`)`-class star succeeds exactly when a `)` occurs later. -/
def matchFlagTail (cs : List Char) : Bool :=
  match cs.dropWhile isPySpace with
  | '=' :: rest =>
    let rest2 := rest.dropWhile isPySpace
    leadsWith ("FeatureFlag(".toList) rest2 && (rest2.drop 12).contains ')'
  | _ => false

/-- `re.search` of the declaration pattern
`FLAG\s*=\s*FeatureFlag\([^)]*\)` (source line 137): the pattern matches
at some position of the text. -/
def searchFlagPattern (flag : String) : List Char → Bool
  | [] => false
  | c :: cs =>
    (leadsWith flag.toList (c :: cs) && matchFlagTail ((c :: cs).drop flag.toList.length))
      || searchFlagPattern flag cs

/-- The control state of the scanning loop of `remove_flag_definition`:
either scanning normally, or inside the multi-line lookahead with the
remembered first line, the accumulated definition text, and the running
parenthesis balance. -/
inductive ScanState where
  | normal
  | accum (firstLine acc : String) (level : Int)
deriving DecidableEq

/-- The scanning loop of `remove_flag_definition` (source lines 139-181),
as a one-pass state machine over the lines; returns the surviving lines
and the `modified` flag.  In the `normal` state: blank lines are copied;
a line containing the flag name is deleted if the single-line pattern
matches, otherwise if it contains `=` and `FeatureFlag(` the multi-line
lookahead starts (entering `accum` when its parenthesis balance is
positive, deciding immediately otherwise); all other lines are copied.
In the `accum` state lines are consumed while the balance stays positive;
when it returns to zero (or input ends) the accumulated text is matched:
on success all consumed lines are deleted, on failure only the first line
is kept — the Python loop's `i -= 1` immediately followed by `i += 1`
resumes after the consumed lines, so they are dropped from the output. -/
def removeScanGo (flag : String) : ScanState → List String → List String × Bool
  | .normal, [] => ([], false)
  | .accum f acc _, [] =>
    if searchFlagPattern flag (stripNL acc).toList then ([], true) else ([f], false)
  | .normal, line :: rest =>
    if isBlankLine line then
      let res := removeScanGo flag .normal rest
      (line :: res.1, res.2)
    else if containsStr line flag then
      if searchFlagPattern flag line.toList then
        let res := removeScanGo flag .normal rest
        (res.1, true)
      else if containsStr line "=" && containsStr line "FeatureFlag(" then
        if parenDelta line > 0 then
          removeScanGo flag (.accum line line (parenDelta line)) rest
        else if searchFlagPattern flag (stripNL line).toList then
          let res := removeScanGo flag .normal rest
          (res.1, true)
        else
          let res := removeScanGo flag .normal rest
          (line :: res.1, res.2)
      else
        let res := removeScanGo flag .normal rest
        (line :: res.1, res.2)
    else
      let res := removeScanGo flag .normal rest
      (line :: res.1, res.2)
  | .accum f acc lvl, line :: rest =>
    let acc2 := acc ++ line
    let lvl2 := lvl + parenDelta line
    if lvl2 > 0 then removeScanGo flag (.accum f acc2 lvl2) rest
    else if searchFlagPattern flag (stripNL acc2).toList then
      let res := removeScanGo flag .normal rest
      (res.1, true)
    else
      let res := removeScanGo flag .normal rest
      (f :: res.1, res.2)

/-- The blank-line collapse `re.sub` (source line 185): every maximal run
of three or more newline characters is replaced by exactly two.  The first
argument counts the newlines of the current run already seen. -/
def collapseAux : Nat → List Char → List Char
  | _, [] => []
  | k, c :: cs =>
    if c = '\n' then
      if 2 ≤ k then collapseAux (k + 1) cs
      else '\n' :: collapseAux (k + 1) cs
    else c :: collapseAux 0 cs

/-- String form of the blank-line collapse. -/
def collapseNewlineRuns (s : String) : String :=
  String.mk (collapseAux 0 s.toList)

/-- `remove_flag_definition` (source lines 130-187): run the scanning
loop, rejoin the surviving lines, and apply the blank-line collapse to
the whole result — unconditionally, whether or not anything matched. -/
def remove_flag_definition (content : String) (flag_name : String) : String × Bool :=
  let res := removeScanGo flag_name .normal (splitLines content)
  (collapseNewlineRuns (String.join res.1), res.2)

/-- The pending not-yet-emitted line carried by a scan state. -/
def stateCarry : ScanState → List String
  | .normal => []
  | .accum f _ _ => [f]

/-- Whether a statement list contains a `raise` statement (used to state
that a guard is, or is not, followed by an unconditional abort). -/
def seqHasRaise : PNode → Bool
  | .seqCons h t =>
    (match h with
     | .raiseStmt _ _ => true
     | _ => false) || seqHasRaise t
  | _ => false

/-- Every statement of the list lies within lines `l..e` of its parent. -/
def seqAllBounds (l e : Nat) : PNode → Bool
  | .seqCons h t =>
    decide (l ≤ nodeLineno h) && decide (nodeEndLineno h ≤ e) && seqAllBounds l e t
  | _ => true

/-- Whether a statement list has at least one statement. -/
def seqNonEmpty : PNode → Bool
  | .seqCons _ _ => true
  | _ => false

/-- Well-formedness of the line information of a tree, as guaranteed by
Python's parser: a conditional starts at line at least 1, ends no earlier
than it starts, has a non-empty body, and every body statement lies within
the conditional's own line span; recursively for nested statements. -/
def wfNode : PNode → Bool
  | .ifStmt l e _ body orelse =>
    decide (1 ≤ l) && decide (l ≤ e) && seqNonEmpty body &&
      seqAllBounds l e body && wfNode body && wfNode orelse
  | .raiseStmt l e => decide (1 ≤ l) && decide (l ≤ e)
  | .otherStmt _ _ children => wfNode children
  | .seqNil => true
  | .seqCons h t => wfNode h && wfNode t

/-- Source text `if obj.FLAG(): y = 1` (one single-line conditional). -/
def singleLineSrc : String := "if obj.FLAG(): y = 1\n"

/-- Parse of `singleLineSrc`: a module with one `If` whose test is the
call `obj.FLAG()` and whose body is the assignment on the same line;
Python reports `lineno = end_lineno = 1` for both the `If` and the
assignment. -/
def singleLineTree : PNode :=
  .seqCons
    (.ifStmt 1 1 (.call (.attrExpr "FLAG"))
      (.seqCons (.otherStmt 1 1 .seqNil) .seqNil)
      .seqNil)
    .seqNil

/-- Source text with a flag-guarded conditional nested inside another
flag-guarded conditional, followed by an unrelated top-level line:
line 1 `if obj.FLAG():`, line 2 `    a = 1`, line 3 `    if obj.FLAG():`,
line 4 `        b = 2`, line 5 `    c = 3`, line 6 `d = 4`. -/
def nestedSrc : String :=
  "if obj.FLAG():\n    a = 1\n    if obj.FLAG():\n        b = 2\n    c = 3\nd = 4\n"

/-- Parse of `nestedSrc`: outer `If` spans lines 1-5 with body
`[a = 1 (line 2), inner If (lines 3-4), c = 3 (line 5)]`; inner `If`
spans lines 3-4 with body `[b = 2 (line 4)]`; then `d = 4` at line 6. -/
def nestedTree : PNode :=
  .seqCons
    (.ifStmt 1 5 (.call (.attrExpr "FLAG"))
      (.seqCons (.otherStmt 2 2 .seqNil)
        (.seqCons
          (.ifStmt 3 4 (.call (.attrExpr "FLAG"))
            (.seqCons (.otherStmt 4 4 .seqNil) .seqNil)
            .seqNil)
          (.seqCons (.otherStmt 5 5 .seqNil) .seqNil)))
      .seqNil)
    (.seqCons (.otherStmt 6 6 .seqNil) .seqNil)

/-- Parse of the two-line source `if not obj.FLAG():` / `    y = 1`:
a negated flag guard whose body is a plain assignment — not a raise. -/
def negNoAbortTree : PNode :=
  .seqCons
    (.ifStmt 1 2 (.negExpr (.call (.attrExpr "FLAG")))
      (.seqCons (.otherStmt 2 2 .seqNil) .seqNil)
      .seqNil)
    .seqNil

/-- Scenario-1 source text: a flag guard with two body statements and an
else branch, the body one level deeper than the guard: line 1
`if obj.FLAG():`, line 2 `    a = 1`, line 3 `    b = 2`, line 4 `else:`,
line 5 `    c = 3`. -/
def scenario1Src : String :=
  "if obj.FLAG():\n    a = 1\n    b = 2\nelse:\n    c = 3\n"

/-- Parse of `scenario1Src`: one `If` spanning lines 1-5 with the two
assignments (lines 2 and 3) as body and the line-5 assignment as orelse. -/
def scenario1Tree : PNode :=
  .seqCons
    (.ifStmt 1 5 (.call (.attrExpr "FLAG"))
      (.seqCons (.otherStmt 2 2 .seqNil) (.seqCons (.otherStmt 3 3 .seqNil) .seqNil))
      (.seqCons (.otherStmt 5 5 .seqNil) .seqNil))
    .seqNil

/-- The indentation normalizer returns exactly as many lines as it was
given, in every branch. -/
theorem adjust_indentation_length (lines : List String) (target : String) :
    (adjust_indentation lines target).length = lines.length := by
  unfold adjust_indentation
  split
  · rfl
  · split
    · rfl
    · dsimp only
      split
      · rfl
      · simp

/-- Reading a mapped list at an in-range position. -/
theorem getD_map_of_lt (f : String → String) (l : List String) (i : Nat)
    (h : i < l.length) : (l.map f).getD i "" = f (l.getD i "") := by
  simp [List.getD_eq_getElem?_getD, List.getElem?_map, List.getElem?_eq_getElem h]

/-- Reading a Python slice `lines[a:b]` at an in-range position gives the
original line at position `a + i`. -/
theorem sliceList_getD (lines : List String) (a b i : Nat)
    (h : i < (sliceList lines a b).length) :
    (sliceList lines a b).getD i "" = lines.getD (a + i) "" := by
  unfold sliceList at h ⊢
  rw [List.length_take] at h
  have h1 : i < b - a := lt_of_lt_of_le h (min_le_left _ _)
  have h2 : i < (lines.drop a).length := lt_of_lt_of_le h (min_le_right _ _)
  simp [List.getD_eq_getElem?_getD, List.getElem?_take, h1, List.getElem?_drop]

/-- Position-wise description of the rewriting branch of the indentation
normalizer: at every in-range position the output line is either the input
line unchanged (blank lines, and both identity branches) or the target
indentation prepended to a suffix of the input line. -/
theorem adjust_indentation_getD (L : List String) (t : String) (i : Nat)
    (h : i < L.length) :
    (adjust_indentation L t).getD i "" = L.getD i ""
    ∨ ∃ k, (adjust_indentation L t).getD i "" = t ++ strDrop (L.getD i "") k := by
  unfold adjust_indentation
  split
  · left; rfl
  · split
    · left; rfl
    · next first tail heq =>
      dsimp only
      split
      · left; rfl
      · rw [getD_map_of_lt _ _ _ h]
        cases hx : isBlankLine (L.getD i "")
        · right
          exact ⟨(get_indent first).toList.length, rfl⟩
        · left
          rfl

/-- C1 (amended): for a `keep_body=true` match record the Source Rewriter
replaces the whole construct span with exactly the body-span lines after
re-indenting them to the indentation of the line at the construct start;
every line spliced in is derived from the corresponding body-span line
(the line at position `tbStart + i` of the original text), either
unchanged or re-indented, so no line outside the body span — in
particular no else-branch line, and no guard-header line whenever the
body starts on a later line than the guard — contributes to the output
for that span. -/
theorem c1_keep_splice (lines : List String) (s e ts te i : Nat)
    (hi : i < (sliceList lines ts te).length) :
    applyLoc lines (FlagLoc.keep s e ts te) =
      lines.take s ++
        adjust_indentation (sliceList lines ts te) (get_indent (lines.getD s "")) ++
        lines.drop e
    ∧ (adjust_indentation (sliceList lines ts te) (get_indent (lines.getD s ""))).length
        = (sliceList lines ts te).length
    ∧ (sliceList lines ts te).getD i "" = lines.getD (ts + i) ""
    ∧ ((adjust_indentation (sliceList lines ts te)
            (get_indent (lines.getD s ""))).getD i ""
          = (sliceList lines ts te).getD i ""
        ∨ ∃ k, (adjust_indentation (sliceList lines ts te)
            (get_indent (lines.getD s ""))).getD i ""
          = get_indent (lines.getD s "") ++ strDrop ((sliceList lines ts te).getD i "") k) :=
  ⟨rfl, adjust_indentation_length _ _, sliceList_getD _ _ _ _ hi,
    adjust_indentation_getD _ _ _ hi⟩

/-- Witness for `c1_keep_splice` at the Scenario-1 input. -/
theorem c1_keep_splice_witness :
    applyLoc (splitLines scenario1Src) (FlagLoc.keep 0 5 1 3) =
      (splitLines scenario1Src).take 0 ++
        adjust_indentation (sliceList (splitLines scenario1Src) 1 3)
          (get_indent ((splitLines scenario1Src).getD 0 "")) ++
        (splitLines scenario1Src).drop 5
    ∧ (adjust_indentation (sliceList (splitLines scenario1Src) 1 3)
          (get_indent ((splitLines scenario1Src).getD 0 ""))).length
        = (sliceList (splitLines scenario1Src) 1 3).length
    ∧ (sliceList (splitLines scenario1Src) 1 3).getD 0 ""
        = (splitLines scenario1Src).getD (1 + 0) ""
    ∧ ((adjust_indentation (sliceList (splitLines scenario1Src) 1 3)
            (get_indent ((splitLines scenario1Src).getD 0 ""))).getD 0 ""
          = (sliceList (splitLines scenario1Src) 1 3).getD 0 ""
        ∨ ∃ k, (adjust_indentation (sliceList (splitLines scenario1Src) 1 3)
            (get_indent ((splitLines scenario1Src).getD 0 ""))).getD 0 ""
          = get_indent ((splitLines scenario1Src).getD 0 "") ++
              strDrop ((sliceList (splitLines scenario1Src) 1 3).getD 0 "") k) :=
  c1_keep_splice (splitLines scenario1Src) 0 5 1 3 0 (by decide)

/-- C1 (counterexample to the claim as stated): on the single-line
conditional `if obj.FLAG(): y = 1` the collector produces a
`keep_body=true` record whose body span starts at the construct start,
and the rewriter's output for the construct span is exactly the guard's
own clause-header line — so a line of the guard's clause header does
appear in the output for that span. -/
theorem c1_counterexample :
    collect_locations "FLAG" singleLineTree = [FlagLoc.keep 0 1 0 1]
    ∧ applyLoc (splitLines singleLineSrc) (FlagLoc.keep 0 1 0 1)
        = splitLines singleLineSrc
    ∧ (applyLoc (splitLines singleLineSrc) (FlagLoc.keep 0 1 0 1)).getD 0 ""
        = "if obj.FLAG(): y = 1\n" :=
  ⟨by decide, by decide, by decide⟩

/-- C10 (amended): when the leading whitespace of the block's first
non-blank line differs from the target, `adjust_indentation` rewrites
every non-blank line by removing exactly `k` leading characters — `k`
the length of that leading whitespace — and prepending the target,
leaving blank lines unchanged (so a more deeply indented line keeps its
extra relative indentation and a line with fewer than `k` leading
whitespace characters loses its first `k` characters outright); when the
leading whitespace of the first non-blank line already equals the
target, the block is returned unchanged. -/
theorem c10_reindent (lines : List String) (target first : String)
    (hf : (lines.filter (fun l => !(isBlankLine l))).head? = some first) :
    (get_indent first = target → adjust_indentation lines target = lines)
    ∧ (get_indent first ≠ target →
        (adjust_indentation lines target).length = lines.length
        ∧ ∀ i, i < lines.length →
            (adjust_indentation lines target).getD i "" =
              (if isBlankLine (lines.getD i "") = true then lines.getD i ""
               else target ++ strDrop (lines.getD i "") (get_indent first).toList.length)) := by
  unfold adjust_indentation
  split
  · next he =>
    rw [List.isEmpty_iff.mp he] at hf
    simp at hf
  · split
    · next heq =>
      rw [heq] at hf
      simp at hf
    · next b tl heq =>
      rw [heq] at hf
      simp only [List.head?_cons, Option.some.injEq] at hf
      subst hf
      dsimp only
      split
      · next hpos =>
        refine ⟨fun _ => rfl, fun hne => absurd hpos hne⟩
      · next hneg =>
        refine ⟨fun hcon => absurd hcon hneg, fun _ => ⟨by simp, ?_⟩⟩
        intro i hi
        rw [getD_map_of_lt _ _ _ hi]
        cases hx : isBlankLine (lines.getD i "")
        · rfl
        · rfl

/-- Witness for `c10_reindent` on a one-line block indented four spaces,
re-targeted to two spaces. -/
theorem c10_reindent_witness :
    (adjust_indentation ["    x"] "  ").length = (["    x"] : List String).length
    ∧ (adjust_indentation ["    x"] "  ").getD 0 "" =
        (if isBlankLine ((["    x"] : List String).getD 0 "") = true
         then (["    x"] : List String).getD 0 ""
         else "  " ++ strDrop ((["    x"] : List String).getD 0 "")
            (get_indent "    x").toList.length) :=
  ⟨((c10_reindent ["    x"] "  " "    x" (by decide)).2 (by decide)).1,
   ((c10_reindent ["    x"] "  " "    x" (by decide)).2 (by decide)).2 0 (by decide)⟩

/-- C10 (counterexample to the claim as stated): with block
`["  a", "b"]` and target `"  "` the identity fast path fires (the first
non-blank line's indentation already equals the target), so the second
line is returned as `"b"` — not re-written to target-plus-suffix as the
claim's unconditional per-line formula predicts. -/
theorem c10_counterexample :
    adjust_indentation ["  a", "b"] "  " = ["  a", "b"]
    ∧ (adjust_indentation ["  a", "b"] "  ").getD 1 ""
        ≠ "  " ++ strDrop ((["  a", "b"] : List String).getD 1 "")
            (get_indent "  a").toList.length :=
  ⟨by decide, by decide⟩

/-- C2 (amended): the locator classifies a conditional as
`keep_body=false` exactly when its guard is a logical negation of a
direct flag-check call — a call whose callee is a member access whose
attribute equals the flag name — regardless of what the conditional's
body contains; for such a record the rewriter deletes the entire
construct span; and a guard whose test is not a direct flag call or its
negation (in particular a negation of anything else) contributes no
match record at all. -/
theorem c2_negated_guard (flag : String) (t : PExpr) (lines : List String)
    (s e l en : Nat) (body orelse : PNode) :
    (classifyTest flag t = some false ↔
       t = PExpr.negExpr (PExpr.call (PExpr.attrExpr flag)))
    ∧ (classifyTest flag t = some true ↔ t = PExpr.call (PExpr.attrExpr flag))
    ∧ (classifyTest flag t = none →
        collect_locations flag (PNode.ifStmt l en t body orelse) =
          collect_locations flag body ++ collect_locations flag orelse)
    ∧ applyLoc lines (FlagLoc.drop s e) = lines.take s ++ lines.drop e := by
  refine ⟨?_, ?_, ?_, by simp [applyLoc, spliceRange]⟩
  · cases t with
    | call callee =>
      cases callee with
      | attrExpr a =>
        by_cases ha : a = flag <;> simp [classifyTest, ha]
      | call c => simp [classifyTest]
      | negExpr o => simp [classifyTest]
      | otherExpr => simp [classifyTest]
    | attrExpr a => simp [classifyTest]
    | negExpr o =>
      cases o with
      | call callee =>
        cases callee with
        | attrExpr a =>
          by_cases ha : a = flag <;> simp [classifyTest, ha]
        | call c => simp [classifyTest]
        | negExpr o2 => simp [classifyTest]
        | otherExpr => simp [classifyTest]
      | attrExpr a => simp [classifyTest]
      | negExpr o2 => simp [classifyTest]
      | otherExpr => simp [classifyTest]
    | otherExpr => simp [classifyTest]
  · cases t with
    | call callee =>
      cases callee with
      | attrExpr a =>
        by_cases ha : a = flag <;> simp [classifyTest, ha]
      | call c => simp [classifyTest]
      | negExpr o => simp [classifyTest]
      | otherExpr => simp [classifyTest]
    | attrExpr a => simp [classifyTest]
    | negExpr o =>
      cases o with
      | call callee =>
        cases callee with
        | attrExpr a =>
          by_cases ha : a = flag <;> simp [classifyTest, ha]
        | call c => simp [classifyTest]
        | negExpr o2 => simp [classifyTest]
        | otherExpr => simp [classifyTest]
      | attrExpr a => simp [classifyTest]
      | negExpr o2 => simp [classifyTest]
      | otherExpr => simp [classifyTest]
    | otherExpr => simp [classifyTest]
  · intro h
    simp [collect_locations, locHere, h]

/-- Witness for `c2_negated_guard`: a negated flag check classifies as
`keep_body=false`, and a non-flag guard contributes no record. -/
theorem c2_negated_guard_witness :
    classifyTest "F" (PExpr.negExpr (PExpr.call (PExpr.attrExpr "F"))) = some false
    ∧ collect_locations "F" (PNode.ifStmt 1 2 PExpr.otherExpr PNode.seqNil PNode.seqNil)
        = collect_locations "F" PNode.seqNil ++ collect_locations "F" PNode.seqNil :=
  ⟨((c2_negated_guard "F" (PExpr.negExpr (PExpr.call (PExpr.attrExpr "F")))
      [] 0 0 1 2 PNode.seqNil PNode.seqNil).1).mpr rfl,
   (c2_negated_guard "F" PExpr.otherExpr [] 0 0 1 2 PNode.seqNil PNode.seqNil).2.2.1
      (by decide)⟩

/-- C2 (counterexample to the claim as stated): the conditional
`if not obj.FLAG():` whose body is a plain assignment — not an
unconditional abort — still produces a `keep_body=false` record, so the
classification does not require the negated check to be followed by an
abort. -/
theorem c2_counterexample :
    collect_locations "FLAG" negNoAbortTree = [FlagLoc.drop 0 2]
    ∧ seqHasRaise (PNode.seqCons (PNode.otherStmt 2 2 PNode.seqNil) PNode.seqNil)
        = false :=
  ⟨by decide, by decide⟩

/-- C3 (code bug): on an input with a flag-guarded conditional nested
inside another flag-guarded conditional's span, the collector emits both
records (the child's construct span wholly contained in the parent's) and
the rewrite loop applies them both; applying the inner record first
shrinks the line list, so the outer record's stale indices reach past the
construct and mangle the unrelated following line `d = 4` into `4`. -/
theorem c3_nested_corruption :
    collect_locations "FLAG" nestedTree
        = [FlagLoc.keep 0 5 1 5, FlagLoc.keep 2 4 3 4]
    ∧ clean_flag_usage nestedSrc nestedTree "FLAG"
        = ("a = 1\nb = 2\nc = 3\n4\n", true)
    ∧ containsStr nestedSrc "d = 4" = true
    ∧ containsStr (clean_flag_usage nestedSrc nestedTree "FLAG").1 "d = 4" = false :=
  ⟨by decide, by decide, by decide, by decide⟩

/-- C4 (code bug): on the single-line conditional
`if obj.FLAG(): y = 1` the transform returns the text unchanged but
reports `modified = true`; since the output equals the input (and parsing
is deterministic), the second — and every further — application again
reports a modification, contradicting idempotence of the reported flag. -/
theorem c4_second_pass_modified :
    clean_flag_usage singleLineSrc singleLineTree "FLAG" = (singleLineSrc, true) := by
  decide

/-- C5 (code bug): when the multi-line lookahead accumulates
`MY_FLAG_2 = FeatureFlag(` and `    x=1)` for flag `MY_FLAG` and the
accumulated text fails the declaration pattern, the remover keeps only
the first accumulated line and silently drops the second — the consumed
line `    x=1)` is absent from the output although nothing matched. -/
theorem c5_lookahead_drops_lines :
    remove_flag_definition "MY_FLAG_2 = FeatureFlag(\n    x=1)\nrest = 3\n" "MY_FLAG"
        = ("MY_FLAG_2 = FeatureFlag(\nrest = 3\n", false)
    ∧ searchFlagPattern "MY_FLAG"
        (stripNL "MY_FLAG_2 = FeatureFlag(    x=1)").toList = false
    ∧ containsStr "    x=1)\n" "MY_FLAG" = false :=
  ⟨by decide, by decide, by decide⟩

/-- C8 (code bug): for flag `FOO`, the multi-line declaration of the
other flag `FOOBAR` is not matched by the pattern (attribute-name
equality also holds for the locator: `obj.FOOBAR()` does not classify for
`FOO`), yet the remover's failed lookahead drops the declaration's
continuation line, so `FOO` removal damages `FOOBAR`'s declaration. -/
theorem c8_multiline_other_flag_damaged :
    remove_flag_definition "FOOBAR = FeatureFlag(\n    default=False)\n" "FOO"
        = ("FOOBAR = FeatureFlag(\n", false)
    ∧ searchFlagPattern "FOO"
        (stripNL "FOOBAR = FeatureFlag(    default=False)").toList = false
    ∧ classifyTest "FOO" (PExpr.call (PExpr.attrExpr "FOOBAR")) = none :=
  ⟨by decide, by decide, by decide⟩

/-- C7 (amended, usage-cleaner part): whenever `clean_flag_usage` reports
`modified = false` the text it returns is the input text verbatim. -/
theorem c7_clean_noop_verbatim (source : String) (tree : PNode) (flag out : String)
    (h : clean_flag_usage source tree flag = (out, false)) : out = source := by
  simp only [clean_flag_usage] at h
  by_cases hc : (collect_locations flag tree).isEmpty
  · rw [if_pos hc] at h
    exact ((Prod.ext_iff.mp h).1).symm
  · rw [if_neg hc] at h
    have := (Prod.ext_iff.mp h).2
    simp at this

/-- Witness for `c7_clean_noop_verbatim` on a file with no flag guard. -/
theorem c7_clean_noop_verbatim_witness : ("x = 1\n" : String) = "x = 1\n" :=
  c7_clean_noop_verbatim "x = 1\n"
    (PNode.seqCons (PNode.otherStmt 1 1 PNode.seqNil) PNode.seqNil) "F" "x = 1\n"
    (by decide)

/-- C7 (counterexample to the claim as stated): `remove_flag_definition`
on a flag-free input containing a run of three blank lines reports
`modified = false` yet returns text that differs from the input — the
unconditional blank-line collapse ran anyway. -/
theorem c7_counterexample :
    remove_flag_definition "x\n\n\n\ny\n" "FOO" = ("x\n\ny\n", false)
    ∧ ("x\n\ny\n" : String) ≠ "x\n\n\n\ny\n" :=
  ⟨by decide, by decide⟩

/-- A common lower bound of the seed and all elements bounds a left fold
of minimum. -/
theorem le_foldl_min (b : Nat) (xs : List Nat) :
    ∀ x, b ≤ x → (∀ y ∈ xs, b ≤ y) → b ≤ xs.foldl Nat.min x := by
  induction xs with
  | nil => exact fun x hx _ => hx
  | cons y ys ih =>
    intro x hx hxs
    rw [List.foldl_cons]
    exact ih (Nat.min x y) (le_min hx (hxs y (List.mem_cons_self y ys)))
      (fun z hz => hxs z (List.mem_cons_of_mem _ hz))

/-- A common upper bound of the seed and all elements bounds a left fold
of maximum. -/
theorem foldl_max_le (b : Nat) (xs : List Nat) :
    ∀ x, x ≤ b → (∀ y ∈ xs, y ≤ b) → xs.foldl Nat.max x ≤ b := by
  induction xs with
  | nil => exact fun x hx _ => hx
  | cons y ys ih =>
    intro x hx hxs
    rw [List.foldl_cons]
    exact ih (Nat.max x y) (max_le hx (hxs y (List.mem_cons_self y ys)))
      (fun z hz => hxs z (List.mem_cons_of_mem _ hz))

/-- The per-statement line bound of `seqAllBounds`, read off for the
start lines. -/
theorem seqAllBounds_lineno (l e : Nat) (body : PNode)
    (h : seqAllBounds l e body = true) : ∀ x ∈ seqLinenos body, l ≤ x := by
  induction body with
  | seqCons hd tl ihh iht =>
    intro x hx
    simp only [seqAllBounds, Bool.and_eq_true, decide_eq_true_eq] at h
    simp only [seqLinenos, List.mem_cons] at hx
    cases hx with
    | inl hx => exact hx ▸ h.1.1
    | inr hx => exact iht h.2 x hx
  | ifStmt l2 e2 t2 b2 o2 ih1 ih2 => intro x hx; simp [seqLinenos] at hx
  | raiseStmt l2 e2 => intro x hx; simp [seqLinenos] at hx
  | otherStmt l2 e2 c2 ih => intro x hx; simp [seqLinenos] at hx
  | seqNil => intro x hx; simp [seqLinenos] at hx

/-- The per-statement line bound of `seqAllBounds`, read off for the end
lines. -/
theorem seqAllBounds_endLineno (l e : Nat) (body : PNode)
    (h : seqAllBounds l e body = true) : ∀ x ∈ seqEndLinenos body, x ≤ e := by
  induction body with
  | seqCons hd tl ihh iht =>
    intro x hx
    simp only [seqAllBounds, Bool.and_eq_true, decide_eq_true_eq] at h
    simp only [seqEndLinenos, List.mem_cons] at hx
    cases hx with
    | inl hx => exact hx ▸ h.1.2
    | inr hx => exact iht h.2 x hx
  | ifStmt l2 e2 t2 b2 o2 ih1 ih2 => intro x hx; simp [seqEndLinenos] at hx
  | raiseStmt l2 e2 => intro x hx; simp [seqEndLinenos] at hx
  | otherStmt l2 e2 c2 ih => intro x hx; simp [seqEndLinenos] at hx
  | seqNil => intro x hx; simp [seqEndLinenos] at hx

/-- A non-empty statement list has a non-empty list of start lines. -/
theorem seqNonEmpty_linenos (body : PNode) (h : seqNonEmpty body = true) :
    ∃ x xs, seqLinenos body = x :: xs := by
  cases body with
  | seqCons hd tl => exact ⟨_, _, rfl⟩
  | ifStmt l e t b o => simp [seqNonEmpty] at h
  | raiseStmt l e => simp [seqNonEmpty] at h
  | otherStmt l e c => simp [seqNonEmpty] at h
  | seqNil => simp [seqNonEmpty] at h

/-- A non-empty statement list has a non-empty list of end lines. -/
theorem seqNonEmpty_endLinenos (body : PNode) (h : seqNonEmpty body = true) :
    ∃ x xs, seqEndLinenos body = x :: xs := by
  cases body with
  | seqCons hd tl => exact ⟨_, _, rfl⟩
  | ifStmt l e t b o => simp [seqNonEmpty] at h
  | raiseStmt l e => simp [seqNonEmpty] at h
  | otherStmt l e c => simp [seqNonEmpty] at h
  | seqNil => simp [seqNonEmpty] at h

/-- The minimum-based body start is bounded below by the guard's own
(zero-based) start line when every body statement starts at or after the
guard's line. -/
theorem true_branch_start_ge (l : Nat) (body : PNode) (x : Nat) (xs : List Nat)
    (hsl : seqLinenos body = x :: xs) (hall : ∀ y ∈ seqLinenos body, l ≤ y) :
    l - 1 ≤ true_branch_start body := by
  unfold true_branch_start
  rw [hsl]
  show l - 1 ≤ (xs.map (fun v => v - 1)).foldl Nat.min (x - 1)
  refine le_foldl_min (l - 1) _ _ ?_ ?_
  · exact Nat.sub_le_sub_right (hall x (hsl ▸ List.mem_cons_self x xs)) 1
  · intro y hy
    obtain ⟨z, hz, rfl⟩ := List.mem_map.mp hy
    exact Nat.sub_le_sub_right (hall z (hsl ▸ List.mem_cons_of_mem _ hz)) 1

/-- The maximum-based body end is bounded above by the construct's end
line when every body statement ends by it. -/
theorem true_branch_end_le (e : Nat) (body : PNode) (x : Nat) (xs : List Nat)
    (hsl : seqEndLinenos body = x :: xs) (hall : ∀ y ∈ seqEndLinenos body, y ≤ e) :
    true_branch_end body ≤ e := by
  unfold true_branch_end
  rw [hsl]
  show xs.foldl Nat.max x ≤ e
  exact foldl_max_le e xs x (hall x (hsl ▸ List.mem_cons_self x xs))
    (fun z hz => hall z (hsl ▸ List.mem_cons_of_mem _ hz))

/-- Every `keep_body=true` record the collector produces on a well-formed
tree has its body span contained in its construct span. -/
theorem collect_keep_bounds (flag : String) (tree : PNode)
    (hwf : wfNode tree = true) :
    ∀ s e ts te, FlagLoc.keep s e ts te ∈ collect_locations flag tree →
      s ≤ ts ∧ te ≤ e := by
  induction tree with
  | ifStmt l en t body orelse ihb iho =>
    intro s e ts te hm
    simp only [wfNode, Bool.and_eq_true, decide_eq_true_eq] at hwf
    obtain ⟨⟨⟨⟨⟨h1l, hle⟩, hnemp⟩, hbounds⟩, hwfb⟩, hwfo⟩ := hwf
    simp only [collect_locations, List.mem_append] at hm
    rcases hm with (hm | hm) | hm
    · simp only [locHere] at hm
      cases hcl : classifyTest flag t with
      | none => rw [hcl] at hm; simp at hm
      | some kb =>
        cases kb with
        | false => rw [hcl] at hm; simp at hm
        | true =>
          rw [hcl] at hm
          simp only [List.mem_singleton] at hm
          obtain ⟨hs, he, hts, hte⟩ := (FlagLoc.keep.injEq _ _ _ _ _ _ _ _).mp hm
          subst hs; subst he; subst hts; subst hte
          constructor
          · obtain ⟨x, xs, hsl⟩ := seqNonEmpty_linenos body hnemp
            exact true_branch_start_ge l body x xs hsl
              (seqAllBounds_lineno l e body hbounds)
          · obtain ⟨x, xs, hsl⟩ := seqNonEmpty_endLinenos body hnemp
            exact true_branch_end_le e body x xs hsl
              (seqAllBounds_endLineno l e body hbounds)
    · exact ihb hwfb s e ts te hm
    · exact iho hwfo s e ts te hm
  | raiseStmt l e =>
    intro s e2 ts te hm
    simp [collect_locations] at hm
  | otherStmt l e children ih =>
    intro s e2 ts te hm
    simp only [wfNode] at hwf
    simp only [collect_locations] at hm
    exact ih hwf s e2 ts te hm
  | seqNil =>
    intro s e ts te hm
    simp [collect_locations] at hm
  | seqCons hd tl ihh iht =>
    intro s e ts te hm
    simp only [wfNode, Bool.and_eq_true] at hwf
    simp only [collect_locations, List.mem_append] at hm
    rcases hm with hm | hm
    · exact ihh hwf.1 s e ts te hm
    · exact iht hwf.2 s e ts te hm

/-- C9 (amended): on a well-formed parse tree, every `keep_body=true`
match record has `construct_span.start ≤ body_span.start` and
`body_span.end ≤ construct_span.end` (containment; it is not always
strict — see the counterexample — since a single-line conditional has
`body_span.start = construct_span.start`), and the number of lines the
rewriter splices in for the record never exceeds the number of lines in
the body span. -/
theorem c9_span_bounds (flag : String) (tree : PNode) (hwf : wfNode tree = true)
    (s e ts te : Nat) (hm : FlagLoc.keep s e ts te ∈ collect_locations flag tree)
    (lines : List String) (target : String) :
    s ≤ ts ∧ te ≤ e
    ∧ (adjust_indentation (sliceList lines ts te) target).length ≤ te - ts := by
  obtain ⟨h1, h2⟩ := collect_keep_bounds flag tree hwf s e ts te hm
  refine ⟨h1, h2, ?_⟩
  rw [adjust_indentation_length]
  exact List.length_take_le _ _

/-- Witness for `c9_span_bounds` at the nested input. -/
theorem c9_span_bounds_witness :
    (0 : Nat) ≤ 1 ∧ (5 : Nat) ≤ 5
    ∧ (adjust_indentation (sliceList [] 1 5) "").length ≤ 5 - 1 :=
  c9_span_bounds "FLAG" nestedTree (by decide) 0 5 1 5 (by decide) [] ""

/-- C9 (counterexample to the claim as stated): the single-line
conditional `if obj.FLAG(): y = 1` yields a record with
`construct_span.start = body_span.start = 0`, so the containment is not
strict. -/
theorem c9_counterexample :
    collect_locations "FLAG" singleLineTree = [FlagLoc.keep 0 1 0 1]
    ∧ ¬((0 : Nat) < 0) :=
  ⟨by decide, by decide⟩

/-- The scanning loop only ever deletes lines: its output (preceded by
the pending first line of an in-progress lookahead) is a subsequence of
that pending line followed by the remaining input. -/
theorem removeScanGo_sublist (flag : String) :
    ∀ (ls : List String) (st : ScanState),
      List.Sublist (removeScanGo flag st ls).1 (stateCarry st ++ ls) := by
  intro ls
  induction ls with
  | nil =>
    intro st
    cases st with
    | normal => simp [removeScanGo, stateCarry]
    | accum f acc lvl =>
      simp only [removeScanGo, stateCarry]
      split
      · simp
      · simp
  | cons line rest ih =>
    intro st
    cases st with
    | normal =>
      simp only [removeScanGo, stateCarry, List.nil_append]
      repeat' split
      all_goals try dsimp only
      all_goals
        first
          | exact List.Sublist.cons₂ _ (by simpa using ih ScanState.normal)
          | exact List.Sublist.cons _ (by simpa using ih ScanState.normal)
          | simpa using ih (ScanState.accum line line (parenDelta line))
    | accum f acc lvl =>
      simp only [removeScanGo, stateCarry, List.singleton_append]
      repeat' split
      all_goals try dsimp only
      all_goals
        first
          | exact List.Sublist.trans
              (by simpa using ih (ScanState.accum f (acc ++ line) (lvl + parenDelta line)))
              (List.Sublist.cons₂ _ (List.sublist_cons_self _ _))
          | exact List.Sublist.cons _ (List.Sublist.cons _ (by simpa using ih ScanState.normal))
          | exact List.Sublist.cons₂ _ (List.Sublist.cons _ (by simpa using ih ScanState.normal))

/-- With no input line containing the flag name, the scanning loop copies
every line through unchanged and reports no modification. -/
theorem removeScanGo_no_flag (flag : String) :
    ∀ ls : List String, (∀ l ∈ ls, containsStr l flag = false) →
      removeScanGo flag .normal ls = (ls, false) := by
  intro ls
  induction ls with
  | nil => intro _; rfl
  | cons line rest ih =>
    intro h
    have hline : containsStr line flag = false := h line (List.mem_cons_self _ _)
    have hrest := ih (fun l hl => h l (List.mem_cons_of_mem _ hl))
    cases hb : isBlankLine line with
    | true => simp [removeScanGo, hb, hline, hrest]
    | false => simp [removeScanGo, hb, hline, hrest]

/-- If a pattern does not occur in a concatenation, it does not occur in
the right-hand part. -/
theorem occursIn_append_false (pat : List Char) :
    ∀ l r : List Char, occursIn pat (l ++ r) = false → occursIn pat r = false := by
  intro l
  induction l with
  | nil => exact fun r h => h
  | cons c cs ih =>
    intro r h
    apply ih
    rw [List.cons_append] at h
    simp only [occursIn] at h
    exact (Bool.or_eq_false_iff.mp h).2

/-- The blank-line collapse is the identity on text without three
consecutive newlines; the run-length state is accounted for by
prepending the already-seen newlines, capped at two. -/
theorem collapseAux_no_triple :
    ∀ (cs : List Char) (k : Nat),
      occursIn ['\n', '\n', '\n'] (List.replicate (min k 2) '\n' ++ cs) = false →
      collapseAux k cs = cs := by
  intro cs
  induction cs with
  | nil => intro k _; rfl
  | cons c cs2 ih =>
    intro k h
    by_cases hc : c = '\n'
    · subst hc
      by_cases hk : 2 ≤ k
      · exfalso
        have hmin : min k 2 = 2 := by omega
        rw [hmin] at h
        have hre : List.replicate 2 '\n' ++ '\n' :: cs2
            = '\n' :: '\n' :: '\n' :: cs2 := rfl
        rw [hre] at h
        have htrue : occursIn ['\n', '\n', '\n'] ('\n' :: '\n' :: '\n' :: cs2)
            = true := by
          simp only [occursIn]
          rw [show leadsWith ['\n', '\n', '\n'] ('\n' :: '\n' :: '\n' :: cs2)
              = true from rfl]
          simp
        rw [htrue] at h
        simp at h
      · have hmin : min k 2 = k := by omega
        rw [hmin] at h
        have hre : List.replicate k '\n' ++ '\n' :: cs2
            = List.replicate (min (k + 1) 2) '\n' ++ cs2 := by
          have h2 : min (k + 1) 2 = k + 1 := by omega
          rw [h2, List.replicate_succ']
          simp
        rw [hre] at h
        have hrec := ih (k + 1) h
        have hstep : collapseAux k ('\n' :: cs2)
            = '\n' :: collapseAux (k + 1) cs2 := by
          simp [collapseAux, hk]
        rw [hstep, hrec]
    · have h2 : occursIn ['\n', '\n', '\n'] cs2 = false := by
        apply occursIn_append_false _ (List.replicate (min k 2) '\n' ++ [c]) cs2
        rw [List.append_assoc]
        simpa using h
      have hrec := ih 0 (by simpa using h2)
      have hstep : collapseAux k (c :: cs2) = c :: collapseAux 0 cs2 := by
        simp [collapseAux, hc]
      rw [hstep, hrec]

/-- String form of `collapseAux_no_triple`: the final rewriting of the
declaration remover is the identity on text with no run of three or more
newlines. -/
theorem collapseNewlineRuns_id (s : String)
    (h : occursIn ['\n', '\n', '\n'] s.toList = false) :
    collapseNewlineRuns s = s := by
  unfold collapseNewlineRuns
  rw [collapseAux_no_triple s.toList 0 (by simpa using h)]
  rfl

/-- C6 (amended): the Declaration Remover's scanning pass only deletes
lines — its output is a subsequence of the input lines — and a line is
deleted only when it contains the flag name or is consumed by the
multi-line lookahead (on an input none of whose lines contains the flag
name the scan is the identity and reports no modification); the final
rewriting then collapses every run of three or more newlines to two,
throughout the whole text and unconditionally, so on a scan output with
no such run the remover's result is exactly the rejoined scan output. -/
theorem c6_frame (flag content : String) :
    List.Sublist (removeScanGo flag .normal (splitLines content)).1
      (splitLines content)
    ∧ ((∀ l ∈ splitLines content, containsStr l flag = false) →
        removeScanGo flag .normal (splitLines content) = (splitLines content, false))
    ∧ (occursIn ['\n', '\n', '\n']
          (String.join (removeScanGo flag .normal (splitLines content)).1).toList
            = false →
        remove_flag_definition content flag =
          (String.join (removeScanGo flag .normal (splitLines content)).1,
            (removeScanGo flag .normal (splitLines content)).2)) := by
  refine ⟨?_, ?_, ?_⟩
  · simpa using removeScanGo_sublist flag (splitLines content) .normal
  · exact removeScanGo_no_flag flag (splitLines content)
  · intro h
    simp only [remove_flag_definition]
    rw [collapseNewlineRuns_id _ h]

/-- Witness for `c6_frame` on a one-line flag-free file. -/
theorem c6_frame_witness :
    List.Sublist (removeScanGo "FOO" .normal (splitLines "q = 1\n")).1
      (splitLines "q = 1\n")
    ∧ removeScanGo "FOO" .normal (splitLines "q = 1\n") = (splitLines "q = 1\n", false)
    ∧ remove_flag_definition "q = 1\n" "FOO" =
        (String.join (removeScanGo "FOO" .normal (splitLines "q = 1\n")).1,
          (removeScanGo "FOO" .normal (splitLines "q = 1\n")).2) :=
  ⟨(c6_frame "FOO" "q = 1\n").1,
   (c6_frame "FOO" "q = 1\n").2.1 (by decide),
   (c6_frame "FOO" "q = 1\n").2.2 (by decide)⟩

/-- C6 (counterexample to the claim as stated): for flag `FOO`, on input
`a`, three blank lines, `b`, then the two-line `FOOBAR` declaration, the
remover deletes the continuation line `  y=2)` although it does not
contain the flag name, and collapses the blank-line run although no
declaration was deleted (`modified = false`), so neither "every line not
containing the flag name appears unchanged" nor "blank-line runs not
adjacent to a deleted declaration are untouched" holds. -/
theorem c6_counterexample :
    remove_flag_definition "a\n\n\n\nb\nFOOBAR = FeatureFlag(\n  y=2)\n" "FOO"
        = ("a\n\nb\nFOOBAR = FeatureFlag(\n", false)
    ∧ "  y=2)\n" ∈ splitLines "a\n\n\n\nb\nFOOBAR = FeatureFlag(\n  y=2)\n"
    ∧ containsStr "  y=2)\n" "FOO" = false
    ∧ ¬ "  y=2)\n" ∈ splitLines "a\n\nb\nFOOBAR = FeatureFlag(\n"
    ∧ (splitLines "a\n\n\n\nb\nFOOBAR = FeatureFlag(\n  y=2)\n").count "\n" = 3
    ∧ (splitLines "a\n\nb\nFOOBAR = FeatureFlag(\n").count "\n" = 1 :=
  ⟨by decide, by decide, by decide, by decide, by decide, by decide⟩
